import Mathlib

/-!
Shallow embedding of the keystroke repository's core logic:
the three compositor IPC parsers (Hyprland, Sway, Niri), the layout-manager
listener bodies, the XKB layout-name resolution and `set_layout`, and the
per-device event-processing loop of the input listener.

Strings from the wire are modelled as Lean `String`/`List Char`.  Rust's
`str::find` returns a byte index; all indices produced by the scanners here
land on ASCII delimiters (quotes, colons, brackets), which are character
boundaries, so the character-index model below slices the same substrings
as the byte-index original.
-/

/-- Rust `<[_]>::starts_with` on character lists: `charsPfx p s` is true
when `p` is an initial segment of `s`. -/
def charsPfx : List Char → List Char → Bool
  | [], _ => true
  | _ :: _, [] => false
  | p :: ps, c :: cs => p == c && charsPfx ps cs

/-- Rust `str::find(pat)`: index of the first occurrence of `pat` in `s`. -/
def findSub (pat : List Char) : List Char → Option Nat
  | [] => if charsPfx pat [] then some 0 else none
  | c :: cs =>
    if charsPfx pat (c :: cs) then some 0
    else (findSub pat cs).map (· + 1)

/-- Rust `str::contains(pat)`. -/
def containsSub (pat : List Char) (s : List Char) : Bool :=
  (findSub pat s).isSome

/-- Rust `str::split_once(pat)`: split at the first occurrence of `pat`. -/
def splitOnce (pat : List Char) : List Char → Option (List Char × List Char)
  | [] => if charsPfx pat [] then some ([], ([] : List Char).drop pat.length) else none
  | c :: cs =>
    if charsPfx pat (c :: cs) then some ([], (c :: cs).drop pat.length)
    else (splitOnce pat cs).map (fun pr => (c :: pr.1, pr.2))

/-- `compositor::KeyboardLayouts`: ordered layout display names plus the
index of the currently active one. -/
structure KeyboardLayouts where
  names : List String
  current_idx : Nat
deriving DecidableEq, Inhabited

/-- `KeyboardLayouts::current_name`: `self.names.get(self.current_idx)`. -/
def KeyboardLayouts.current_name (l : KeyboardLayouts) : Option String :=
  l.names[l.current_idx]?

/-- `KeyboardLayouts::is_empty`. -/
def KeyboardLayouts.isEmptyL (l : KeyboardLayouts) : Bool :=
  l.names.isEmpty

/-- `compositor::LayoutEvent`. -/
inductive LayoutEvent where
  | LayoutSwitched (name : String) (index : Nat)
  | LayoutsChanged (layouts : KeyboardLayouts)
deriving DecidableEq

/-! ## Protocol A: Hyprland client -/

/-- The key literal `"active_keymap"` (with its JSON quotes) searched for by
`HyprlandClient::parse_devices_response`. -/
def activeKeymapKey : List Char := "\"active_keymap\"".toList

/-- The scanning loop of `HyprlandClient::parse_devices_response`.
`rem` is `json[search_start..]`, `seen` mirrors the `seen_layouts` hash set
and `names` the accumulated `layouts.names`.  Every loop iteration advances
`search_start` by at least one character, so `fuel = json.length + 1` never
runs out on the entry call below. -/
def hyprScan : Nat → List Char → List String → List String → List String
  | 0, _, _, names => names
  | fuel + 1, rem, seen, names =>
    match findSub activeKeymapKey rem with
    | none => names
    | some keyPos =>
      let atKey := rem.drop keyPos
      match findSub [':'] atKey with
      | none => hyprScan fuel (rem.drop (keyPos + 1)) seen names
      | some colonOff =>
        let afterColon := atKey.drop (colonOff + 1)
        match findSub ['"'] afterColon with
        | none => hyprScan fuel (rem.drop (keyPos + 1)) seen names
        | some qs =>
          let content := afterColon.drop (qs + 1)
          match findSub ['"'] content with
          | none => hyprScan fuel (rem.drop (keyPos + 1)) seen names
          | some qe =>
            let layout_name : String := ⟨content.take qe⟩
            let newRem := content.drop (qe + 1)
            if layout_name ≠ "" ∧ layout_name ∉ seen then
              hyprScan fuel newRem (layout_name :: seen) (names ++ [layout_name])
            else
              hyprScan fuel newRem seen names

/-- `HyprlandClient::parse_devices_response` (the `current_idx` of the
result is never written and stays at its default `0`). -/
def hypr_parse_devices_response (json : String) : KeyboardLayouts :=
  { names := hyprScan (json.toList.length + 1) json.toList [] [], current_idx := 0 }

/-- `HyprlandClient::parse_event`: `line.split_once(">>")`. -/
def hypr_parse_event (line : String) : Option (String × String) :=
  (splitOnce ">>".toList line.toList).map (fun pr => (⟨pr.1⟩, ⟨pr.2⟩))

/-- `HyprlandClient::is_layout_event`. -/
def hypr_is_layout_event (event_name : String) : Bool :=
  event_name == "activelayout"

/-- `HyprlandClient::parse_layout_event`: `data.split_once(',')`. -/
def hypr_parse_layout_event (data : String) : Option (String × String) :=
  (splitOnce [','] data.toList).map (fun pr => (⟨pr.1⟩, ⟨pr.2⟩))

/-- Rust `Iterator::position` specialised to equality on a string list,
as used on `cached.names` in `LayoutManager::listen_hyprland`. -/
def posOf : List String → String → Option Nat
  | [], _ => none
  | x :: xs, y => if x = y then some 0 else (posOf xs y).map (· + 1)

/-- One iteration of the line loop in `LayoutManager::listen_hyprland`:
given the cached snapshot and one event line, returns the new cache
contents and the list of events passed to the callback (the model assumes
the write lock is acquired, i.e. it is never poisoned). -/
def listen_hyprland_step (cache : KeyboardLayouts) (line : String) :
    KeyboardLayouts × List LayoutEvent :=
  match hypr_parse_event line with
  | none => (cache, [])
  | some (event_name, event_data) =>
    if hypr_is_layout_event event_name then
      match hypr_parse_layout_event event_data with
      | none => (cache, [])
      | some (_keyboard, layout_name) =>
        match posOf cache.names layout_name with
        | some i =>
          ({ cache with current_idx := i },
           [LayoutEvent.LayoutSwitched layout_name i])
        | none =>
          let i := cache.names.length
          ({ names := cache.names ++ [layout_name], current_idx := i },
           [LayoutEvent.LayoutSwitched layout_name i])
    else (cache, [])

/-! ## Shared numeric-field extraction

`NiriClient::extract_current_idx`, `NiriClient::extract_event_layout_index`
and `SwayClient::extract_active_layout_index` all locate a quoted key, find
the following colon, skip whitespace, take ASCII digits and `parse()` the
collected digit string. -/

/-- Rust `str::parse::<usize>()` on a string of ASCII digits: fails on an
empty string and on overflow past `usize::MAX` (the accumulated value is
monotone in the digits consumed, so overflow at some step is equivalent to
the final value reaching `2 ^ 64`). -/
def parseUsizeDigits (ds : List Char) : Option Nat :=
  if ds = [] then none
  else
    let v := ds.foldl (fun a c => a * 10 + (c.toNat - 48)) 0
    if v < 2 ^ 64 then some v else none

/-- The shared shape of the three numeric-field extractors: find `key`,
find the colon after it, skip whitespace, take ASCII digits, parse. -/
def numAfterKey (key : List Char) (json : List Char) : Option Nat :=
  match findSub key json with
  | none => none
  | some keyPos =>
    let afterKey := json.drop (keyPos + key.length)
    match findSub [':'] afterKey with
    | none => none
    | some colonPos =>
      let afterColon := afterKey.drop (colonPos + 1)
      parseUsizeDigits
        ((afterColon.dropWhile (fun c => c.isWhitespace)).takeWhile
          (fun c => c.isDigit))

/-! ## Protocol C: Niri client -/

/-- The character loop of `NiriClient::extract_names_array` over the
bracket-delimited array content: a quoted-string state machine that honors
backslash escapes.  Arguments mirror the source locals
`in_string`, `escape_next`, `current` and `names`. -/
def niriNamesScan : List Char → Bool → Bool → List Char → List String → List String
  | [], _, _, _, names => names
  | ch :: rest, in_string, escape_next, current, names =>
    if escape_next then
      niriNamesScan rest in_string false (current ++ [ch]) names
    else if ch = '\\' ∧ in_string then
      niriNamesScan rest in_string true current names
    else if ch = '"' ∧ ¬in_string then
      niriNamesScan rest true escape_next [] names
    else if ch = '"' ∧ in_string then
      niriNamesScan rest false escape_next current
        (if current = [] then names else names ++ [⟨current⟩])
    else if in_string then
      niriNamesScan rest in_string escape_next (current ++ [ch]) names
    else
      niriNamesScan rest in_string escape_next current names

/-- `NiriClient::extract_names_array`. -/
def niri_extract_names_array (json : String) : Option (List String) :=
  match findSub "\"names\"".toList json.toList with
  | none => none
  | some keyPos =>
    let afterKey := json.toList.drop (keyPos + "\"names\"".toList.length)
    match findSub ['['] afterKey with
    | none => none
    | some bracketStart =>
      let arrayContentStart := afterKey.drop (bracketStart + 1)
      match findSub [']'] arrayContentStart with
      | none => none
      | some bracketEnd =>
        let arrayContent := arrayContentStart.take bracketEnd
        let names := niriNamesScan arrayContent false false [] []
        if names = [] then none else some names

/-- `NiriClient::extract_current_idx`. -/
def niri_extract_current_idx (json : String) : Option Nat :=
  numAfterKey "\"current_idx\"".toList json.toList

/-- `NiriClient::extract_event_layout_index`. -/
def niri_extract_event_layout_index (json : String) : Option Nat :=
  numAfterKey "\"idx\"".toList json.toList

/-- `NiriClient::parse_layouts_response`. -/
def niri_parse_layouts_response (json : String) : KeyboardLayouts :=
  { names := (niri_extract_names_array json).getD []
    current_idx := (niri_extract_current_idx json).getD 0 }

/-- `NiriClient::parse_event`: a `KeyboardLayoutSwitched` marker with a
parsable `idx` yields `LayoutSwitched` with an empty name; otherwise a
`KeyboardLayoutsChanged` marker with a non-empty parsed snapshot yields
`LayoutsChanged`. -/
def niri_parse_event (line : String) : Option LayoutEvent :=
  let switched : Option LayoutEvent :=
    if containsSub "\"KeyboardLayoutSwitched\"".toList line.toList then
      (niri_extract_event_layout_index line).map
        (fun idx => LayoutEvent.LayoutSwitched "" idx)
    else none
  match switched with
  | some e => some e
  | none =>
    if containsSub "\"KeyboardLayoutsChanged\"".toList line.toList then
      let layouts := niri_parse_layouts_response line
      if layouts.isEmptyL then none else some (LayoutEvent.LayoutsChanged layouts)
    else none

/-- One iteration of the line loop in `LayoutManager::listen_niri`: only a
`LayoutsChanged` event is written into the cached snapshot; every parsed
event is passed to the callback. -/
def listen_niri_step (cache : KeyboardLayouts) (line : String) :
    KeyboardLayouts × List LayoutEvent :=
  match niri_parse_event line with
  | none => (cache, [])
  | some e =>
    match e with
    | LayoutEvent.LayoutsChanged new_layouts => (new_layouts, [e])
    | LayoutEvent.LayoutSwitched _ _ => (cache, [e])

/-! ## Protocol B: Sway client -/

/-- The 6-byte i3-ipc magic, as byte values. -/
def IPC_MAGIC : List Nat := "i3-ipc".toList.map Char.toNat

/-- `u32::to_le_bytes` as a 4-element byte list. -/
def u32_to_le_bytes (n : Nat) : List Nat :=
  [n % 256, n / 256 % 256, n / 65536 % 256, n / 16777216 % 256]

/-- `u32::from_le_bytes` on a 4-element byte list. -/
def u32_from_le_bytes (bs : List Nat) : Nat :=
  bs.getD 0 0 + 256 * bs.getD 1 0 + 65536 * bs.getD 2 0 + 16777216 * bs.getD 3 0

/-- `SwayClient::build_header`: 6 magic bytes, then the payload length and
the message type, both little-endian u32. -/
def build_header (payload_len message_type : Nat) : List Nat :=
  IPC_MAGIC ++ u32_to_le_bytes payload_len ++ u32_to_le_bytes message_type

/-- The character loop of `SwayClient::extract_layout_names_array`: the
same quoted-string scanner as Niri's but without escape handling. -/
def swayNamesScan : List Char → Bool → List Char → List String → List String
  | [], _, _, names => names
  | ch :: rest, in_string, current, names =>
    if ch = '"' ∧ ¬in_string then
      swayNamesScan rest true [] names
    else if ch = '"' ∧ in_string then
      swayNamesScan rest false current
        (if current = [] then names else names ++ [⟨current⟩])
    else if in_string then
      swayNamesScan rest true (current ++ [ch]) names
    else
      swayNamesScan rest false current names

/-- `SwayClient::extract_layout_names_array`. -/
def sway_extract_layout_names_array (json : String) : Option (List String) :=
  match findSub "\"xkb_layout_names\"".toList json.toList with
  | none => none
  | some keyPos =>
    let afterKey := json.toList.drop (keyPos + "\"xkb_layout_names\"".toList.length)
    match findSub ['['] afterKey with
    | none => none
    | some bracketPos =>
      let arrayStart := afterKey.drop (bracketPos + 1)
      match findSub [']'] arrayStart with
      | none => none
      | some bracketEnd =>
        let arrayContent := arrayStart.take bracketEnd
        let names := swayNamesScan arrayContent false [] []
        if names = [] then none else some names

/-- `SwayClient::extract_active_layout_index`. -/
def sway_extract_active_layout_index (json : String) : Option Nat :=
  numAfterKey "\"xkb_active_layout_index\"".toList json.toList

/-- `SwayClient::extract_active_layout_name`. -/
def sway_extract_active_layout_name (json : String) : Option String :=
  match findSub "\"xkb_active_layout_name\"".toList json.toList with
  | none => none
  | some keyPos =>
    let afterKey := json.toList.drop (keyPos + "\"xkb_active_layout_name\"".toList.length)
    match findSub [':'] afterKey with
    | none => none
    | some colonPos =>
      let afterColon := afterKey.drop (colonPos + 1)
      match findSub ['"'] afterColon with
      | none => none
      | some quoteStart =>
        let afterQuote := afterColon.drop (quoteStart + 1)
        match findSub ['"'] afterQuote with
        | none => none
        | some quoteEnd =>
          let nm := afterQuote.take quoteEnd
          if nm = [] then none else some ⟨nm⟩

/-- The dedup loop in `SwayClient::parse_inputs_response`: push each
non-empty name whose insertion into the `seen_layouts` set is fresh. -/
def swayDedup : List String → List String → List String → List String
  | [], _, acc => acc
  | n :: rest, seen, acc =>
    if n ≠ "" ∧ n ∉ seen then swayDedup rest (n :: seen) (acc ++ [n])
    else swayDedup rest seen acc

/-- `SwayClient::parse_inputs_response`: deduplicated names from the
`xkb_layout_names` array, the `xkb_active_layout_index` if present, and —
only when the names list ended up empty — the single
`xkb_active_layout_name` as fallback. -/
def sway_parse_inputs_response (json : String) : KeyboardLayouts :=
  let names :=
    match sway_extract_layout_names_array json with
    | some arr => swayDedup arr [] []
    | none => []
  let idx := (sway_extract_active_layout_index json).getD 0
  let names2 :=
    if names = [] then
      match sway_extract_active_layout_name json with
      | some n => [n]
      | none => []
    else names
  { names := names2, current_idx := idx }

/-! ## XKB layout-name resolution (`input/xkb.rs`) -/

/-- `LAYOUT_NAME_MAP`: display name to `(layout identifier, variant)`.
The source hash map has pairwise-distinct keys (and no two keys equal up to
ASCII case), so the association-list lookup below computes the same
results as the hash-map lookups. -/
def LAYOUT_NAME_MAP : List (String × String × String) :=
  [("Spanish (Latin American)", "latam", ""),
   ("Spanish", "es", ""),
   ("Spanish (Spain)", "es", ""),
   ("Spanish (Dvorak)", "es", "dvorak"),
   ("Spanish (Catalan)", "es", "cat"),
   ("Spanish (Mexico)", "latam", ""),
   ("Spanish (Argentina)", "latam", ""),
   ("English (US)", "us", ""),
   ("English", "us", ""),
   ("US", "us", ""),
   ("English (UK)", "gb", ""),
   ("English (British)", "gb", ""),
   ("British", "gb", ""),
   ("English (Dvorak)", "us", "dvorak"),
   ("English (Colemak)", "us", "colemak"),
   ("English (intl)", "us", "intl"),
   ("English (US, intl.)", "us", "intl"),
   ("English (US, international)", "us", "intl"),
   ("English (US, alt. intl.)", "us", "alt-intl"),
   ("English (Macintosh)", "us", "mac"),
   ("German", "de", ""),
   ("German (Switzerland)", "ch", "de"),
   ("German (Austria)", "at", ""),
   ("German (Dvorak)", "de", "dvorak"),
   ("German (Neo)", "de", "neo"),
   ("French", "fr", ""),
   ("French (Canada)", "ca", "fr"),
   ("French (Belgium)", "be", ""),
   ("French (Switzerland)", "ch", "fr"),
   ("French (AZERTY)", "fr", ""),
   ("French (Dvorak)", "fr", "dvorak"),
   ("French (BEPO)", "fr", "bepo"),
   ("Portuguese", "pt", ""),
   ("Portuguese (Brazil)", "br", ""),
   ("Portuguese (Portugal)", "pt", ""),
   ("Brazilian", "br", ""),
   ("Italian", "it", ""),
   ("Italian (Macintosh)", "it", "mac"),
   ("Swedish", "se", ""),
   ("Norwegian", "no", ""),
   ("Danish", "dk", ""),
   ("Finnish", "fi", ""),
   ("Icelandic", "is", ""),
   ("Polish", "pl", ""),
   ("Czech", "cz", ""),
   ("Slovak", "sk", ""),
   ("Hungarian", "hu", ""),
   ("Romanian", "ro", ""),
   ("Croatian", "hr", ""),
   ("Serbian", "rs", ""),
   ("Serbian (Latin)", "rs", "latin"),
   ("Slovenian", "si", ""),
   ("Bulgarian", "bg", ""),
   ("Bulgarian (phonetic)", "bg", "phonetic"),
   ("Russian", "ru", ""),
   ("Russian (phonetic)", "ru", "phonetic"),
   ("Ukrainian", "ua", ""),
   ("Belarusian", "by", ""),
   ("Greek", "gr", ""),
   ("Turkish", "tr", ""),
   ("Turkish (F)", "tr", "f"),
   ("Arabic", "ara", ""),
   ("Hebrew", "il", ""),
   ("Japanese", "jp", ""),
   ("Japanese (Kana)", "jp", "kana"),
   ("Korean", "kr", ""),
   ("Chinese", "cn", ""),
   ("Thai", "th", ""),
   ("Vietnamese", "vn", ""),
   ("Hindi", "in", ""),
   ("Indian", "in", ""),
   ("Dutch", "nl", ""),
   ("Dutch (Belgium)", "be", ""),
   ("Esperanto", "epo", ""),
   ("Irish", "ie", ""),
   ("Estonian", "ee", ""),
   ("Latvian", "lv", ""),
   ("Lithuanian", "lt", "")]

/-- ASCII lowercasing, the effect of Rust `str::to_lowercase` on the ASCII
strings involved here (`Char.toLower` lowers exactly `A`–`Z`). -/
def asciiLower (s : String) : String :=
  ⟨s.toList.map Char.toLower⟩

/-- Step 1 of `parse_layout_name`: exact map lookup. -/
def lookupExact (name : String) : Option (String × String) :=
  (LAYOUT_NAME_MAP.find? (fun e => e.1 == name)).map (fun e => e.2)

/-- Step 2 of `parse_layout_name`: case-insensitive map lookup. -/
def lookupCaseless (name : String) : Option (String × String) :=
  (LAYOUT_NAME_MAP.find? (fun e => asciiLower e.1 == asciiLower name)).map
    (fun e => e.2)

/-- Rust `str::trim` (whitespace from both ends). -/
def trimChars (cs : List Char) : List Char :=
  ((cs.dropWhile Char.isWhitespace).reverse.dropWhile Char.isWhitespace).reverse

/-- Step 3 of `parse_layout_name`: the parenthetical-prefix heuristic —
lowercase the trimmed text before the first `(` and match it against a
fixed set of common language bases. -/
def parenHeuristic (name : String) : Option (String × String) :=
  match findSub ['('] name.toList with
  | none => none
  | some parenPos =>
    let base := asciiLower ⟨trimChars (name.toList.take parenPos)⟩
    if base = "spanish" then some ("es", "")
    else if base = "english" then some ("us", "")
    else if base = "german" then some ("de", "")
    else if base = "french" then some ("fr", "")
    else if base = "portuguese" then some ("pt", "")
    else if base = "italian" then some ("it", "")
    else if base = "russian" then some ("ru", "")
    else if base = "polish" then some ("pl", "")
    else if base = "dutch" then some ("nl", "")
    else if base = "swedish" then some ("se", "")
    else if base = "norwegian" then some ("no", "")
    else if base = "danish" then some ("dk", "")
    else if base = "finnish" then some ("fi", "")
    else if base = "japanese" then some ("jp", "")
    else if base = "korean" then some ("kr", "")
    else if base = "chinese" then some ("cn", "")
    else none

/-- Step 4 of `parse_layout_name`: pass the trimmed name through when it is
at most 5 characters of ASCII lowercase (for such strings Rust's byte
length equals the character count). -/
def shortLowercasePass (name : String) : Option (String × String) :=
  let trimmed := trimChars name.toList
  if trimmed.length ≤ 5 ∧ trimmed.all Char.isLower then some (⟨trimmed⟩, "")
  else none

/-- `parse_layout_name`: the four resolution steps in order, falling back
to `("us", "")`. -/
def parse_layout_name (name : String) : String × String :=
  match lookupExact name with
  | some lv => lv
  | none =>
    match lookupCaseless name with
    | some lv => lv
    | none =>
      match parenHeuristic name with
      | some lv => lv
      | none =>
        match shortLowercasePass name with
        | some lv => lv
        | none => ("us", "")

/-! ## `XkbState::set_layout`

The xkbcommon FFI boundary is abstracted: `newFromNames` stands for
`xkb::Keymap::new_from_names` against the state's context (returning
`none` on compilation failure) and `stateNew` for `xkb::State::new`. -/

/-- The fields of `XkbState`: context, compiled keymap, live state and the
stored layout name. -/
structure XkbStateM (C K S : Type) where
  context : C
  keymap : K
  state : S
  layout_name : String
deriving DecidableEq

/-- `XkbState::set_layout`: resolve the name, recompile against the same
context; on failure return `false` leaving every field untouched, on
success swap in the new keymap, reset the live state and store the name. -/
def set_layout {C K S : Type} (newFromNames : C → String → String → Option K)
    (stateNew : K → S) (st : XkbStateM C K S) (name : String) :
    Bool × XkbStateM C K S :=
  let lv := parse_layout_name name
  match newFromNames st.context lv.1 lv.2 with
  | none => (false, st)
  | some km =>
    (true,
     { context := st.context, keymap := km, state := stateNew km,
       layout_name := name })

/-! ## Input listener (`input/listener.rs`)

Keys are evdev key codes, modelled as `Nat`.  The channel is modelled as
the list of events the worker hands to `try_send`; drop-on-full and the
closed-channel shutdown are environmental effects outside the model. -/

/-- `keymap::KeyDisplay` (the `display_name` field is the pure rendering
`key_to_display_name(key)`, supplied here as the function `dn`). -/
structure KeyDisplay where
  key : Nat
  display_name : String
  pressed : Bool
  is_repeat : Bool
deriving DecidableEq

/-- `KeyDisplay::new`. -/
def KeyDisplay.make (dn : Nat → String) (key : Nat) (pressed : Bool) : KeyDisplay :=
  { key := key, display_name := dn key, pressed := pressed, is_repeat := false }

/-- `KeyDisplay::new_repeat`. -/
def KeyDisplay.makeRepeat (dn : Nat → String) (key : Nat) : KeyDisplay :=
  { key := key, display_name := dn key, pressed := true, is_repeat := true }

/-- `listener::KeyEvent`. -/
inductive KeyEvent where
  | Pressed (kd : KeyDisplay)
  | Released (kd : KeyDisplay)
  | AllReleased
deriving DecidableEq

/-- A raw evdev event as seen by `process_events`: either a key-type event
with its key code and value, or any event of another type. -/
inductive RawEvent where
  | keyEv (key : Nat) (value : Nat)
  | otherEv
deriving DecidableEq

/-- `HashSet::insert` on the tracked pressed-key list (kept duplicate-free
by the guarded insert). -/
def insertKey (pressed : List Nat) (key : Nat) : List Nat :=
  if key ∈ pressed then pressed else key :: pressed

/-- The body of the per-event loop of `process_events` for one key-type
event: returns the new tracked pressed set, the classified event (if any)
and whether the event counted as activity. -/
def classify_key_event (dn : Nat → String) (ignored : List Nat)
    (pressed : List Nat) (key value : Nat) :
    List Nat × Option KeyEvent × Bool :=
  if key ∈ ignored then (pressed, none, false)
  else
    match value with
    | 1 => (insertKey pressed key,
            some (KeyEvent.Pressed (KeyDisplay.make dn key true)), true)
    | 0 => (pressed.erase key,
            some (KeyEvent.Released (KeyDisplay.make dn key false)), true)
    | 2 => (pressed, some (KeyEvent.Pressed (KeyDisplay.makeRepeat dn key)), true)
    | _ => (pressed, none, true)

/-- The event loop of `process_events` over a fetched batch: threads the
tracked pressed set and the activity flag, collecting sent events. -/
def process_batch (dn : Nat → String) (ignored : List Nat) :
    List RawEvent → List Nat → Bool → List Nat × List KeyEvent × Bool
  | [], pressed, activity => (pressed, [], activity)
  | RawEvent.otherEv :: rest, pressed, activity =>
      process_batch dn ignored rest pressed activity
  | RawEvent.keyEv key value :: rest, pressed, activity =>
      let step := classify_key_event dn ignored pressed key value
      let tail := process_batch dn ignored rest step.1 (activity || step.2.2)
      (tail.1,
       (match step.2.1 with
        | some e => e :: tail.2.1
        | none => tail.2.1),
       tail.2.2)

/-- The stuck-key reconciliation block of `process_events` (lines
191–206): keys tracked as pressed that the device's authoritative state
no longer reports are removed from the tracked set and a synthesized
`Released` is sent for each. -/
def reconcile (dn : Nat → String) (pressed : List Nat) (actual : List Nat) :
    List Nat × List KeyEvent :=
  let stuck := pressed.filter (fun k => !(actual.contains k))
  (pressed.filter (fun k => actual.contains k),
   stuck.map (fun k => KeyEvent.Released (KeyDisplay.make dn k false)))

/-- `process_events` for one fetched batch: the per-event loop, then —
when there was activity, the tracked set is non-empty and
`device.get_key_state()` succeeded with `actual` — the stuck-key
reconciliation. -/
def process_events (dn : Nat → String) (ignored : List Nat)
    (actual : Option (List Nat)) (events : List RawEvent)
    (pressed : List Nat) : List Nat × List KeyEvent :=
  let r := process_batch dn ignored events pressed false
  if r.2.2 ∧ r.1 ≠ [] then
    match actual with
    | some st =>
      let rec2 := reconcile dn r.1 st
      (rec2.1, r.2.1 ++ rec2.2)
    | none => (r.1, r.2.1)
  else (r.1, r.2.1)

/-! ## Helper lemmas -/

/-- `posOf` computes a position of its argument. -/
lemma posOf_getElem? : ∀ (xs : List String) (y : String) (i : Nat),
    posOf xs y = some i → xs[i]? = some y := by
  intro xs
  induction xs with
  | nil => intro y i h; simp [posOf] at h
  | cons x xs ih =>
    intro y i h
    simp only [posOf] at h
    by_cases hx : x = y
    · rw [if_pos hx] at h
      cases h
      simp [hx]
    · rw [if_neg hx] at h
      cases hf : posOf xs y with
      | none => rw [hf] at h; simp at h
      | some j =>
        rw [hf] at h
        simp only [Option.map_some', Option.some.injEq] at h
        subst h
        simpa using ih y j hf

/-- The characters strictly before the first occurrence of `c` found by
`findSub [c]` are all different from `c`. -/
lemma findSub_single_take : ∀ (c : Char) (l : List Char) (i : Nat),
    findSub [c] l = some i → c ∉ l.take i := by
  intro c l
  induction l with
  | nil => intro i h; simp [findSub, charsPfx] at h
  | cons x xs ih =>
    intro i h
    simp only [findSub] at h
    by_cases hx : charsPfx [c] (x :: xs) = true
    · rw [if_pos hx] at h
      cases h
      simp
    · rw [if_neg hx] at h
      cases hf : findSub [c] xs with
      | none => rw [hf] at h; simp at h
      | some j =>
        rw [hf] at h
        simp only [Option.map_some', Option.some.injEq] at h
        subst h
        have hcx : ¬(c = x) := by
          intro hcx
          apply hx
          simp [charsPfx, hcx]
        simp only [List.take_succ_cons, List.mem_cons, not_or]
        exact ⟨fun hc => hcx hc, ih j hf⟩

/-- The `hyprScan` loop keeps the accumulated name list duplicate-free, as
long as every accumulated name is recorded in the seen set. -/
lemma hyprScan_sub_nodup (fuel : Nat) : ∀ (rem : List Char) (seen names : List String),
    names.Nodup → (∀ x ∈ names, x ∈ seen) →
    (hyprScan fuel rem seen names).Nodup := by
  induction fuel with
  | zero => intro rem seen names h1 _; exact h1
  | succ fuel ih =>
    intro rem seen names h1 h2
    rw [hyprScan]
    cases hk : findSub activeKeymapKey rem with
    | none => exact h1
    | some keyPos =>
      simp only []
      cases hc : findSub [':'] (rem.drop keyPos) with
      | none => exact ih _ _ _ h1 h2
      | some colonOff =>
        simp only []
        cases hq : findSub ['"'] ((rem.drop keyPos).drop (colonOff + 1)) with
        | none => exact ih _ _ _ h1 h2
        | some qs =>
          simp only []
          cases hq2 : findSub ['"']
              (((rem.drop keyPos).drop (colonOff + 1)).drop (qs + 1)) with
          | none => exact ih _ _ _ h1 h2
          | some qe =>
            simp only []
            split
            · next hguard =>
              apply ih
              · rw [List.nodup_append]
                refine ⟨h1, by simp, ?_⟩
                intro a ha hmem
                simp only [List.mem_singleton] at hmem
                subst hmem
                exact hguard.2 (h2 _ ha)
              · intro x hx
                rcases List.mem_append.mp hx with hx1 | hx2
                · exact List.mem_cons_of_mem _ (h2 x hx1)
                · simp only [List.mem_singleton] at hx2
                  subst hx2
                  exact List.mem_cons_self _ _
            · exact ih _ _ _ h1 h2

/-- Every name the `hyprScan` loop accumulates is non-empty and contains
no quote character (it is cut at the first quote found). -/
lemma hyprScan_props (fuel : Nat) : ∀ (rem : List Char) (seen names : List String),
    (∀ x ∈ names, x ≠ "" ∧ '"' ∉ x.toList) →
    ∀ x ∈ hyprScan fuel rem seen names, x ≠ "" ∧ '"' ∉ x.toList := by
  induction fuel with
  | zero => intro rem seen names h3; exact h3
  | succ fuel ih =>
    intro rem seen names h3
    rw [hyprScan]
    cases hk : findSub activeKeymapKey rem with
    | none => exact h3
    | some keyPos =>
      simp only []
      cases hc : findSub [':'] (rem.drop keyPos) with
      | none => exact ih _ _ _ h3
      | some colonOff =>
        simp only []
        cases hq : findSub ['"'] ((rem.drop keyPos).drop (colonOff + 1)) with
        | none => exact ih _ _ _ h3
        | some qs =>
          simp only []
          cases hq2 : findSub ['"']
              (((rem.drop keyPos).drop (colonOff + 1)).drop (qs + 1)) with
          | none => exact ih _ _ _ h3
          | some qe =>
            simp only []
            split
            · next hguard =>
              apply ih
              intro x hx
              rcases List.mem_append.mp hx with hx1 | hx2
              · exact h3 x hx1
              · simp only [List.mem_singleton] at hx2
                subst hx2
                refine ⟨hguard.1, ?_⟩
                exact findSub_single_take '"' _ qe hq2
            · exact ih _ _ _ h3

/-- The sway dedup loop keeps the accumulator duplicate-free as long as
every accumulated name is recorded in the seen set. -/
lemma swayDedup_nodup : ∀ (arr seen acc : List String),
    acc.Nodup → (∀ x ∈ acc, x ∈ seen) → (swayDedup arr seen acc).Nodup := by
  intro arr
  induction arr with
  | nil => intro seen acc h1 _; exact h1
  | cons n rest ih =>
    intro seen acc h1 h2
    rw [swayDedup]
    split
    · next hguard =>
      apply ih
      · rw [List.nodup_append]
        refine ⟨h1, by simp, ?_⟩
        intro a ha hmem
        simp only [List.mem_singleton] at hmem
        subst hmem
        exact hguard.2 (h2 _ ha)
      · intro x hx
        rcases List.mem_append.mp hx with hx1 | hx2
        · exact List.mem_cons_of_mem _ (h2 x hx1)
        · simp only [List.mem_singleton] at hx2
          subst hx2
          exact List.mem_cons_self _ _
    · exact ih _ _ h1 h2

/-- The names delivered by `sway_parse_inputs_response` are always
duplicate-free: the array path is deduplicated, the fallback path holds at
most one name. -/
lemma sway_names_nodup (json : String) :
    (sway_parse_inputs_response json).names.Nodup := by
  unfold sway_parse_inputs_response
  cases h : sway_extract_layout_names_array json with
  | none =>
    simp only []
    cases h2 : sway_extract_active_layout_name json <;> simp
  | some arr =>
    simp only []
    by_cases he : swayDedup arr [] [] = []
    · simp only [he, if_pos rfl]
      cases h2 : sway_extract_active_layout_name json <;> simp
    · simp only [if_neg he]
      exact swayDedup_nodup arr [] [] (by simp) (by simp)

/-- The map from a stuck key to its synthesized `Released` event is
injective (the key code is stored in the event). -/
lemma released_make_injective (dn : Nat → String) :
    Function.Injective (fun k => KeyEvent.Released (KeyDisplay.make dn k false)) := by
  intro a b h
  simp only [KeyEvent.Released.injEq, KeyDisplay.make, KeyDisplay.mk.injEq] at h
  exact h.1

/-- C1: the Hyprland event line `activelayout>>kbd0,German` against a cache
holding exactly `["English (US)"]` appends `"German"`, sets the cached
current index to 1 and invokes the callback with
`LayoutSwitched` carrying name `"German"` and index 1. -/
theorem hyprland_activelayout_german_end_to_end :
    listen_hyprland_step { names := ["English (US)"], current_idx := 0 }
      "activelayout>>kbd0,German"
    = ({ names := ["English (US)", "German"], current_idx := 1 },
       [LayoutEvent.LayoutSwitched "German" 1]) := by
  decide

/-- C2 counterexample: in `listen_niri`, a parsed `LayoutSwitched` event is
passed to the callback but the cached snapshot is NOT updated — after a
switch to index 1 the cache still reports index 0 and the old current
name.  The cache is only written for `LayoutsChanged`. -/
theorem niri_layout_switched_cache_not_updated :
    niri_parse_event "\x7b\"Event\":\x7b\"KeyboardLayoutSwitched\":\x7b\"idx\":1\x7d\x7d\x7d"
        = some (LayoutEvent.LayoutSwitched "" 1) ∧
      listen_niri_step { names := ["English (US)", "German"], current_idx := 0 }
          "\x7b\"Event\":\x7b\"KeyboardLayoutSwitched\":\x7b\"idx\":1\x7d\x7d\x7d"
        = ({ names := ["English (US)", "German"], current_idx := 0 },
           [LayoutEvent.LayoutSwitched "" 1]) ∧
      (listen_niri_step { names := ["English (US)", "German"], current_idx := 0 }
          "\x7b\"Event\":\x7b\"KeyboardLayoutSwitched\":\x7b\"idx\":1\x7d\x7d\x7d").1.current_name
        = some "English (US)" := by
  decide

/-- C2 amended: every parsed event is passed to the callback; the cache is
updated for every Hyprland layout event (the callback event is consistent
with the updated cache) and for every Niri `LayoutsChanged` event, while a
Niri `LayoutSwitched` event leaves the cache unchanged. -/
theorem listener_cache_update_callback (cache : KeyboardLayouts) (line : String) :
    (∀ l, niri_parse_event line = some (LayoutEvent.LayoutsChanged l) →
        listen_niri_step cache line = (l, [LayoutEvent.LayoutsChanged l])) ∧
      (∀ nm i, niri_parse_event line = some (LayoutEvent.LayoutSwitched nm i) →
        listen_niri_step cache line = (cache, [LayoutEvent.LayoutSwitched nm i])) ∧
      (∀ en dat kb ln, hypr_parse_event line = some (en, dat) →
        hypr_is_layout_event en = true →
        hypr_parse_layout_event dat = some (kb, ln) →
        (listen_hyprland_step cache line).2
            = [LayoutEvent.LayoutSwitched ln
                (listen_hyprland_step cache line).1.current_idx] ∧
          (listen_hyprland_step cache line).1.names[
              (listen_hyprland_step cache line).1.current_idx]? = some ln) := by
  refine ⟨?_, ?_, ?_⟩
  · intro l h
    simp [listen_niri_step, h]
  · intro nm i h
    simp [listen_niri_step, h]
  · intro en dat kb ln h1 h2 h3
    simp only [listen_hyprland_step, h1, h2, if_true]
    rw [h3]
    cases hp : posOf cache.names ln with
    | some i =>
      simp only [hp]
      exact ⟨trivial, posOf_getElem? cache.names ln i hp⟩
    | none =>
      simp only [hp]
      exact ⟨trivial, List.getElem?_concat_length cache.names ln⟩

/-- Witness for the amended C2 theorem at a concrete Niri switch line. -/
theorem listener_cache_update_callback_witness :
    listen_niri_step { names := ["English (US)"], current_idx := 0 }
        "\x7b\"Event\":\x7b\"KeyboardLayoutSwitched\":\x7b\"idx\":1\x7d\x7d\x7d"
      = ({ names := ["English (US)"], current_idx := 0 },
         [LayoutEvent.LayoutSwitched "" 1]) :=
  (listener_cache_update_callback { names := ["English (US)"], current_idx := 0 }
      "\x7b\"Event\":\x7b\"KeyboardLayoutSwitched\":\x7b\"idx\":1\x7d\x7d\x7d").2.1
    "" 1 (by decide)

/-- C3 counterexample: `parse_devices_response` does NOT honor backslash
escapes — on a value whose quoted form is `a\"b` the scan terminates at
the escaped quote, collecting `a\` instead of `a"b`. -/
theorem hypr_escape_not_honored :
    hypr_parse_devices_response "\x7b\"active_keymap\":\"a\\\"b\"\x7d"
        = { names := ["a\\"], current_idx := 0 } ∧
      "a\"b" ∉
        (hypr_parse_devices_response "\x7b\"active_keymap\":\"a\\\"b\"\x7d").names := by
  decide

/-- C3 amended: the protocol-A extraction scans for the key literal, its
following colon and the first quoted string after it, terminates the value
at the next quote character (backslash escapes are not interpreted), and
collects distinct non-empty values in first-seen order: every result list
is duplicate-free and each collected name is non-empty and quote-free; a
concrete scan shows first-seen order with a duplicate suppressed. -/
theorem hypr_extraction_distinct_nonempty :
    (∀ json : String, (hypr_parse_devices_response json).names.Nodup ∧
        ∀ nm ∈ (hypr_parse_devices_response json).names,
          nm ≠ "" ∧ '"' ∉ nm.toList) ∧
      hypr_parse_devices_response
          "\"active_keymap\":\"b\",\"active_keymap\":\"a\",\"active_keymap\":\"b\""
        = { names := ["b", "a"], current_idx := 0 } := by
  constructor
  · intro json
    constructor
    · exact hyprScan_sub_nodup _ _ _ _ (by simp) (by simp)
    · exact hyprScan_props _ _ _ _ (by simp)
  · decide

/-- Witness for the amended C3 theorem: a collected name is non-empty and
quote-free. -/
theorem hypr_extraction_distinct_nonempty_witness :
    ("b" : String) ≠ "" ∧ '"' ∉ ("b" : String).toList :=
  (hypr_extraction_distinct_nonempty.1 "\"active_keymap\":\"b\"").2 "b" (by decide)

/-- C4 counterexample: the protocol-C extraction (`extract_names_array`)
does not remove duplicates — it returns every quoted string, so equal
names across devices survive. -/
theorem niri_extraction_keeps_duplicates :
    niri_extract_names_array "\x7b\"names\":[\"a\",\"a\"]\x7d" = some ["a", "a"] ∧
      ¬ (["a", "a"] : List String).Nodup := by
  decide

/-- C4 amended: the extractions are pure functions; protocols A and B
suppress duplicates by exact string equality (their result lists are
duplicate-free, and case-variant names are kept), while protocol C
preserves duplicates in order of appearance. -/
theorem extraction_dedup_by_protocol :
    (∀ json : String, (hypr_parse_devices_response json).names.Nodup ∧
        (sway_parse_inputs_response json).names.Nodup) ∧
      hypr_parse_devices_response
          "\"active_keymap\":\"x\",\"active_keymap\":\"X\",\"active_keymap\":\"x\""
        = { names := ["x", "X"], current_idx := 0 } ∧
      niri_extract_names_array "\x7b\"names\":[\"c\",\"c\",\"d\"]\x7d"
        = some ["c", "c", "d"] := by
  refine ⟨?_, by decide, by decide⟩
  intro json
  exact ⟨hyprScan_sub_nodup _ _ _ _ (by simp) (by simp), sway_names_nodup json⟩

/-- C5: `build_header` yields a 14-byte header starting with the i3-ipc
magic, and decoding bytes 6..10 and 10..14 as little-endian u32 recovers
the payload length and the message type. -/
theorem build_header_round_trip (payload_len message_type : Nat)
    (hn : payload_len < 2 ^ 32) (ht : message_type < 2 ^ 32) :
    (build_header payload_len message_type).length = 14 ∧
      (build_header payload_len message_type).take 6 = IPC_MAGIC ∧
      u32_from_le_bytes
          (((build_header payload_len message_type).drop 6).take 4) = payload_len ∧
      u32_from_le_bytes
          (((build_header payload_len message_type).drop 10).take 4) = message_type := by
  refine ⟨rfl, rfl, ?_, ?_⟩
  · show payload_len % 256 + 256 * (payload_len / 256 % 256) +
        65536 * (payload_len / 65536 % 256) +
        16777216 * (payload_len / 16777216 % 256) = payload_len
    omega
  · show message_type % 256 + 256 * (message_type / 256 % 256) +
        65536 * (message_type / 65536 % 256) +
        16777216 * (message_type / 16777216 % 256) = message_type
    omega

/-- Witness for the header round-trip at the get-inputs request values. -/
theorem build_header_round_trip_witness :
    (build_header 9 100).length = 14 ∧
      (build_header 9 100).take 6 = IPC_MAGIC ∧
      u32_from_le_bytes (((build_header 9 100).drop 6).take 4) = 9 ∧
      u32_from_le_bytes (((build_header 9 100).drop 10).take 4) = 100 :=
  build_header_round_trip 9 100 (by decide) (by decide)

/-- C6: when keymap compilation fails for the resolved layout/variant,
`set_layout` returns `false` and leaves the state record — compiled
keymap, live state and stored layout name — exactly as it was. -/
theorem set_layout_failure_atomic {C K S : Type}
    (newFromNames : C → String → String → Option K) (stateNew : K → S)
    (st : XkbStateM C K S) (name : String)
    (h : newFromNames st.context (parse_layout_name name).1
        (parse_layout_name name).2 = none) :
    set_layout newFromNames stateNew st name = (false, st) := by
  simp [set_layout, h]

/-- Witness for `set_layout` failure atomicity with an always-failing
compiler. -/
theorem set_layout_failure_atomic_witness :
    set_layout (fun _ _ _ => (none : Option Unit)) (fun _ => ())
        ⟨(), (), (), "English (US)"⟩ "German"
      = (false, ⟨(), (), (), "English (US)"⟩) :=
  set_layout_failure_atomic (fun _ _ _ => none) (fun _ => ())
    ⟨(), (), (), "English (US)"⟩ "German" rfl

/-- C7: layout-name resolution maps the three documented names as claimed,
and any name missed by all four resolution steps falls back to
`("us", "")`. -/
theorem parse_layout_name_resolution :
    parse_layout_name "Spanish (Latin American)" = ("latam", "") ∧
      parse_layout_name "English (US)" = ("us", "") ∧
      parse_layout_name "French (Canada)" = ("ca", "fr") ∧
      ∀ name, lookupExact name = none → lookupCaseless name = none →
        parenHeuristic name = none → shortLowercasePass name = none →
        parse_layout_name name = ("us", "") := by
  refine ⟨by decide, by decide, by decide, ?_⟩
  intro name h1 h2 h3 h4
  simp [parse_layout_name, h1, h2, h3, h4]

/-- Witness for the documented fallback on an unrecognized name. -/
theorem parse_layout_name_resolution_witness :
    parse_layout_name "Unknown Layout XYZ" = ("us", "") :=
  parse_layout_name_resolution.2.2.2 "Unknown Layout XYZ"
    (by decide) (by decide) (by decide) (by decide)

/-- C8: per-event classification in `process_events` — ignored keys
produce nothing and change nothing; value 1 emits `Pressed` and inserts
the key into the tracked set; value 0 emits `Released` and removes it;
value 2 emits a repeat-marked `Pressed` without touching the set; any
other value emits nothing. -/
theorem classify_key_event_cases (dn : Nat → String) (ignored pressed : List Nat)
    (key value : Nat) :
    (key ∈ ignored →
        classify_key_event dn ignored pressed key value = (pressed, none, false)) ∧
      (key ∉ ignored →
        (value = 1 → classify_key_event dn ignored pressed key value
            = (insertKey pressed key,
               some (KeyEvent.Pressed (KeyDisplay.make dn key true)), true)) ∧
          (value = 0 → classify_key_event dn ignored pressed key value
            = (pressed.erase key,
               some (KeyEvent.Released (KeyDisplay.make dn key false)), true)) ∧
          (value = 2 → classify_key_event dn ignored pressed key value
            = (pressed, some (KeyEvent.Pressed (KeyDisplay.makeRepeat dn key)), true)) ∧
          (value ≠ 0 → value ≠ 1 → value ≠ 2 →
            classify_key_event dn ignored pressed key value
              = (pressed, none, true))) := by
  refine ⟨fun h => by simp [classify_key_event, h], fun h => ⟨?_, ?_, ?_, ?_⟩⟩
  · rintro rfl
    simp [classify_key_event, h]
  · rintro rfl
    simp [classify_key_event, h]
  · rintro rfl
    simp [classify_key_event, h]
  · intro h0 h1 h2
    obtain ⟨w, rfl⟩ : ∃ w, value = w + 3 := ⟨value - 3, by omega⟩
    simp [classify_key_event, h]

/-- Witness for the per-event classification at a concrete press. -/
theorem classify_key_event_cases_witness :
    classify_key_event (fun _ => "") [99] [] 30 1
      = ([30], some (KeyEvent.Pressed (KeyDisplay.make (fun _ => "") 30 true)), true) :=
  ((classify_key_event_cases (fun _ => "") [99] [] 30 1).2 (by decide)).1 rfl

/-- C9: stuck-key reconciliation — a tracked key the device no longer
reports gets exactly one synthesized `Released` and is removed from the
tracked set; a key the device still reports is neither released by the
reconciliation nor removed; and after a batch with activity and a
non-empty tracked set, `process_events` appends exactly the
reconciliation output. -/
theorem stuck_key_reconciliation (dn : Nat → String) (pressed actual : List Nat)
    (K : Nat) (hnd : pressed.Nodup) :
    (K ∈ pressed → K ∉ actual →
        (reconcile dn pressed actual).2.count
            (KeyEvent.Released (KeyDisplay.make dn K false)) = 1 ∧
          K ∉ (reconcile dn pressed actual).1) ∧
      (K ∈ actual →
        KeyEvent.Released (KeyDisplay.make dn K false) ∉ (reconcile dn pressed actual).2 ∧
          (K ∈ pressed → K ∈ (reconcile dn pressed actual).1)) ∧
      (∀ (ignored : List Nat) (events : List RawEvent) (pressed0 : List Nat),
        (process_batch dn ignored events pressed0 false).2.2 = true →
        (process_batch dn ignored events pressed0 false).1 ≠ [] →
        process_events dn ignored (some actual) events pressed0
          = ((reconcile dn (process_batch dn ignored events pressed0 false).1 actual).1,
             (process_batch dn ignored events pressed0 false).2.1 ++
               (reconcile dn (process_batch dn ignored events pressed0 false).1 actual).2)) := by
  refine ⟨?_, ?_, ?_⟩
  · intro hmem hnot
    constructor
    · show ((pressed.filter (fun k => !(actual.contains k))).map
          (fun k => KeyEvent.Released (KeyDisplay.make dn k false))).count
          (KeyEvent.Released (KeyDisplay.make dn K false)) = 1
      rw [List.count_map_of_injective _ _ (released_make_injective dn)]
      rw [List.count_filter (by simp [hnot])]
      exact List.count_eq_one_of_mem hnd hmem
    · show K ∉ pressed.filter (fun k => actual.contains k)
      simp [List.mem_filter, hnot]
  · intro hin
    constructor
    · show KeyEvent.Released (KeyDisplay.make dn K false) ∉
          (pressed.filter (fun k => !(actual.contains k))).map
            (fun k => KeyEvent.Released (KeyDisplay.make dn k false))
      intro hcontra
      rcases List.mem_map.mp hcontra with ⟨k, hk, hke⟩
      have hkK : k = K := released_make_injective dn hke
      subst hkK
      rcases List.mem_filter.mp hk with ⟨_, hnc⟩
      simp [hin] at hnc
    · intro hp
      show K ∈ pressed.filter (fun k => actual.contains k)
      simp [List.mem_filter, hp, hin]
  · intro ignored events pressed0 hact hne
    simp [process_events, hact, hne]

/-- Witness for stuck-key reconciliation: key 30 is tracked, the device
only reports 31. -/
theorem stuck_key_reconciliation_witness :
    (reconcile (fun _ => "") [30, 31] [31]).2.count
        (KeyEvent.Released (KeyDisplay.make (fun _ => "") 30 false)) = 1 ∧
      30 ∉ (reconcile (fun _ => "") [30, 31] [31]).1 :=
  (stuck_key_reconciliation (fun _ => "") [30, 31] [31] 30 (by decide)).1
    (by decide) (by decide)

/-- C10: `current_name` is total and returns `none` whenever the current
index is out of range; the protocol-B parser can produce such a snapshot —
a response with no `xkb_layout_names` array but an active index of 1 and
an active name yields a single-name list with index 1, whose current name
is `none`. -/
theorem current_name_out_of_range :
    (∀ l : KeyboardLayouts, l.names.length ≤ l.current_idx → l.current_name = none) ∧
      sway_parse_inputs_response
          "\x7b\"type\":\"keyboard\",\"xkb_active_layout_index\":1,\"xkb_active_layout_name\":\"English (US)\"\x7d"
        = { names := ["English (US)"], current_idx := 1 } ∧
      (sway_parse_inputs_response
          "\x7b\"type\":\"keyboard\",\"xkb_active_layout_index\":1,\"xkb_active_layout_name\":\"English (US)\"\x7d").current_name
        = none := by
  refine ⟨?_, by decide, by decide⟩
  intro l h
  exact List.getElem?_eq_none h

/-- Witness for the out-of-range branch of `current_name`. -/
theorem current_name_out_of_range_witness :
    KeyboardLayouts.current_name { names := ["x"], current_idx := 2 } = none :=
  current_name_out_of_range.1 { names := ["x"], current_idx := 2 } (by decide)
